import Mathlib

/-!
Shallow embedding of the assembly statistics engine of this repository
(`parse_fasta_stats` and its inner `calculate_nx`, as duplicated in
`scripts/analysis/assess_final_assemblies.py`,
`scripts/analysis/assess_all_conditions.py` and
`scripts/analysis/assess_quality.py`).

Modelling choices:
* a text file is a `List (List Char)` of lines (Python iterates `for line in f`);
  the file-system argument of `parse_fasta_stats` is an `Option` of that:
  `none` models a missing file or an I/O error during reading (both paths
  return `None` in the source), `some lines` models a readable file;
* Python's float arithmetic on the Nx target (`total_length * percentage`)
  is modelled with exact rationals `ℚ`;
* `line.strip()` is `stripChars` (drop whitespace on both ends),
  `line.startswith(">")` on the stripped line is `startsHeader`.
-/

/-- Whitespace test backing `str.strip()` (ASCII whitespace suffices for
this model). -/
def isSpaceChar (c : Char) : Bool :=
  c = ' ' ∨ c = '\t' ∨ c = '\n' ∨ c = '\r'

/-- `line.strip()`: remove leading and trailing whitespace. -/
def stripChars (l : List Char) : List Char :=
  ((l.dropWhile isSpaceChar).reverse.dropWhile isSpaceChar).reverse

/-- `line.startswith(">")` applied to an (already stripped) line. -/
def startsHeader : List Char → Bool
  | [] => false
  | c :: _ => c = '>'

/-- The parsing loop of `parse_fasta_stats`: walk the lines keeping the
accumulated sequence `cur` of the current record; a header line flushes a
non-empty `cur` as a contig length; at end of file a non-empty `cur` is
flushed as well (`# Don't forget the last contig`). -/
def parseLoop : List (List Char) → List Char → List Nat
  | [], cur => if cur.isEmpty then [] else [cur.length]
  | line :: rest, cur =>
    let l := stripChars line
    if startsHeader l then
      (if cur.isEmpty then [] else [cur.length]) ++ parseLoop rest []
    else
      parseLoop rest (cur ++ l)

/-- The contig-length list produced by the parsing phase of
`parse_fasta_stats` on the lines of a file. -/
def parse_fasta_lines (lines : List (List Char)) : List Nat :=
  parseLoop lines []

/-- `contigs.sort(reverse=True)`: sort descending. -/
def sortDesc (l : List Nat) : List Nat :=
  List.insertionSort (· ≥ ·) l

/-- The inner loop of `calculate_nx`: running sum `cumsum`, return the
current length as soon as `cumsum >= target`, else `0` after the walk. -/
def nxLoop (target : ℚ) : Nat → List Nat → Nat
  | _, [] => 0
  | cumsum, len :: rest =>
    if target ≤ ((cumsum + len : Nat) : ℚ) then len
    else nxLoop target (cumsum + len) rest

/-- `calculate_nx(contigs, percentage)` from the source: the target is
`total_length * percentage` where `total_length = sum(contigs)` is the sum
of the very list passed in (the descending-sorted contig list at the call
sites). -/
def calculate_nx (contigs : List Nat) (percentage : ℚ) : Nat :=
  nxLoop ((contigs.sum : ℚ) * percentage) 0 contigs

/-- `max(contigs)` for a list of naturals (the source only calls it on
non-empty lists). -/
def listMax (l : List Nat) : Nat := l.foldr Nat.max 0

/-- `min(contigs)` for a non-empty list. -/
def listMin : List Nat → Nat
  | [] => 0
  | a :: rest => rest.foldr Nat.min a

/-- `np.median(contigs)` (exact rational model). -/
def medianQ (l : List Nat) : ℚ :=
  let s := List.insertionSort (· ≤ ·) l
  let n := s.length
  if n % 2 = 1 then (s.getD (n / 2) 0 : ℚ)
  else (((s.getD (n / 2 - 1) 0 : Nat) + (s.getD (n / 2) 0 : Nat) : Nat) : ℚ) / 2

/-- The statistics record returned by `parse_fasta_stats`
(`assess_final_assemblies.py` variant; the source-path field, pure
traceability, is not modelled). -/
structure AssemblyStats where
  total_length : Nat
  n_contigs : Nat
  n50 : Nat
  n75 : Nat
  n90 : Nat
  max_contig : Nat
  min_contig : Nat
  mean_contig : ℚ
  median_contig : ℚ
  contigs_1kb : Nat
  contigs_5kb : Nat
  contigs_10kb : Nat
  contigs_50kb : Nat
  contigs_100kb : Nat
  longest_10_sum : Nat
  deriving Repr, DecidableEq

/-- The statistics computation of `parse_fasta_stats` on the parsed
contig-length list (lines 48-100 of `assess_final_assemblies.py`). -/
def computeStats (contigs0 : List Nat) : AssemblyStats :=
  let contigs := sortDesc contigs0
  let total := contigs.sum
  { total_length := total
    n_contigs := contigs.length
    n50 := calculate_nx contigs (1/2)
    n75 := calculate_nx contigs (3/4)
    n90 := calculate_nx contigs (9/10)
    max_contig := listMax contigs
    min_contig := listMin contigs
    mean_contig := (total : ℚ) / (contigs.length : ℚ)
    median_contig := medianQ contigs
    contigs_1kb := (contigs.filter (fun c => 1000 ≤ c)).length
    contigs_5kb := (contigs.filter (fun c => 5000 ≤ c)).length
    contigs_10kb := (contigs.filter (fun c => 10000 ≤ c)).length
    contigs_50kb := (contigs.filter (fun c => 50000 ≤ c)).length
    contigs_100kb := (contigs.filter (fun c => 100000 ≤ c)).length
    longest_10_sum :=
      if 10 ≤ contigs.length then ((sortDesc contigs).take 10).sum else total }

/-- `parse_fasta_stats(fasta_file)`: `none` for a missing file or a read
error, `none` when no contigs were parsed, otherwise the statistics. -/
def parse_fasta_stats (file : Option (List (List Char))) : Option AssemblyStats :=
  match file with
  | none => none
  | some lines =>
    let contigs := parse_fasta_lines lines
    if contigs.isEmpty then none else some (computeStats contigs)

/-! ### Parser lemmas -/

lemma flush_length_eq (s : List Char) :
    (if s.isEmpty then ([] : List Nat) else [s.length]) =
      (if s.length = 0 then [] else [s.length]) := by
  cases s <;> simp

lemma parseLoop_append_trailing_header (lines : List (List Char)) :
    ∀ cur, parseLoop (lines ++ [['>']]) cur = parseLoop lines cur := by
  induction lines with
  | nil =>
    intro cur
    have h1 : stripChars ['>'] = ['>'] := by decide
    have h2 : startsHeader ['>'] = true := by decide
    simp [parseLoop, h1, h2]
  | cons line rest ih =>
    intro cur
    simp only [List.cons_append, parseLoop]
    by_cases h : startsHeader (stripChars line) = true
    · simp [h, ih]
    · simp [h, ih]

lemma parseLoop_prefix_nonheader (junk : List (List Char)) :
    ∀ (lines : List (List Char)) (cur : List Char),
      (∀ j ∈ junk, startsHeader (stripChars j) = false) →
      parseLoop (junk ++ lines) cur =
        parseLoop lines (cur ++ (junk.map stripChars).flatten) := by
  induction junk with
  | nil => intro lines cur _; simp
  | cons j junk ih =>
    intro lines cur hj
    have hjh : startsHeader (stripChars j) = false := hj j (by simp)
    simp only [List.cons_append, parseLoop, hjh, Bool.false_eq_true, if_false]
    rw [show junk.append lines = junk ++ lines from rfl,
      ih lines (cur ++ stripChars j) (fun a ha => hj a (by simp [ha]))]
    simp

lemma parseLoop_mem_pos (lines : List (List Char)) :
    ∀ (cur : List Char) (n : Nat), n ∈ parseLoop lines cur → 0 < n := by
  induction lines with
  | nil =>
    intro cur n hn
    cases cur with
    | nil => simp [parseLoop] at hn
    | cons c cs =>
      simp [parseLoop] at hn
      omega
  | cons line rest ih =>
    intro cur n hn
    by_cases h : startsHeader (stripChars line) = true
    · simp only [parseLoop, h, if_true, List.mem_append] at hn
      rcases hn with hn | hn
      · cases cur with
        | nil => simp at hn
        | cons c cs =>
          simp at hn
          omega
      · exact ih [] n hn
    · simp only [parseLoop, h] at hn
      simp at hn
      exact ih _ n hn

lemma parseLoop_skip_blank (pre : List (List Char)) :
    ∀ (post : List (List Char)) (ws : List Char) (cur : List Char),
      stripChars ws = [] →
      parseLoop (pre ++ ws :: post) cur = parseLoop (pre ++ post) cur := by
  induction pre with
  | nil =>
    intro post ws cur hws
    simp only [List.nil_append, parseLoop, hws]
    simp [startsHeader]
  | cons line rest ih =>
    intro post ws cur hws
    simp only [List.cons_append, parseLoop]
    by_cases h : startsHeader (stripChars line) = true
    · simp [h, ih _ _ _ hws]
    · simp [h, ih _ _ _ hws]

/-! ### Nx lemmas -/

lemma nxLoop_cons_pos {t : ℚ} {c len : Nat} {rest : List Nat}
    (h : t ≤ ((c + len : Nat) : ℚ)) : nxLoop t c (len :: rest) = len := by
  rw [nxLoop, if_pos h]

lemma nxLoop_cons_neg {t : ℚ} {c len : Nat} {rest : List Nat}
    (h : ¬ t ≤ ((c + len : Nat) : ℚ)) :
    nxLoop t c (len :: rest) = nxLoop t (c + len) rest := by
  rw [nxLoop, if_neg h]

lemma nxLoop_le_of_forall_le {a : Nat} (l : List Nat) :
    ∀ (c : Nat) (t : ℚ), (∀ b ∈ l, b ≤ a) → nxLoop t c l ≤ a := by
  induction l with
  | nil => intro c t _; simp [nxLoop]
  | cons b rest ih =>
    intro c t hb
    by_cases h : t ≤ ((c + b : Nat) : ℚ)
    · rw [nxLoop_cons_pos h]; exact hb b (by simp)
    · rw [nxLoop_cons_neg h]; exact ih (c + b) t (fun x hx => hb x (by simp [hx]))

lemma nxLoop_anti (l : List Nat) :
    ∀ (c : Nat) (t₁ t₂ : ℚ), List.Sorted (· ≥ ·) l → t₁ ≤ t₂ →
      nxLoop t₂ c l ≤ nxLoop t₁ c l := by
  induction l with
  | nil => intro c t₁ t₂ _ _; simp [nxLoop]
  | cons a rest ih =>
    intro c t₁ t₂ hs ht
    obtain ⟨ha, hrest⟩ := List.sorted_cons.mp hs
    by_cases h2 : t₂ ≤ ((c + a : Nat) : ℚ)
    · have h1 : t₁ ≤ ((c + a : Nat) : ℚ) := le_trans ht h2
      rw [nxLoop_cons_pos h1, nxLoop_cons_pos h2]
    · by_cases h1 : t₁ ≤ ((c + a : Nat) : ℚ)
      · rw [nxLoop_cons_pos h1, nxLoop_cons_neg h2]
        exact nxLoop_le_of_forall_le rest (c + a) t₂ (fun b hb => ha b hb)
      · rw [nxLoop_cons_neg h1, nxLoop_cons_neg h2]
        exact ih (c + a) t₁ t₂ hrest ht

lemma nxLoop_mem (l : List Nat) :
    ∀ (c : Nat) (t : ℚ), l ≠ [] → t ≤ ((c + l.sum : Nat) : ℚ) →
      nxLoop t c l ∈ l := by
  induction l with
  | nil => intro c t h _; exact absurd rfl h
  | cons a rest ih =>
    intro c t _ hsum
    by_cases h : t ≤ ((c + a : Nat) : ℚ)
    · rw [nxLoop_cons_pos h]; simp
    · cases rest with
      | nil =>
        exfalso
        apply h
        simpa using hsum
      | cons b rest2 =>
        rw [nxLoop_cons_neg h]
        apply List.mem_cons_of_mem
        apply ih (c + a) t (by simp)
        rw [List.sum_cons, ← Nat.add_assoc] at hsum
        exact hsum

lemma nxLoop_eq_zero (l : List Nat) :
    ∀ (c : Nat) (t : ℚ), ((c + l.sum : Nat) : ℚ) < t → nxLoop t c l = 0 := by
  induction l with
  | nil => intro c t _; rfl
  | cons a rest ih =>
    intro c t hsum
    have hle : ((c + a : Nat) : ℚ) ≤ ((c + (a :: rest).sum : Nat) : ℚ) := by
      have : c + a ≤ c + (a :: rest).sum := by
        simp [List.sum_cons]
      exact_mod_cast this
    rw [nxLoop_cons_neg (by exact fun hc => absurd (lt_of_le_of_lt (le_trans hc hle) hsum) (lt_irrefl t))]
    apply ih (c + a) t
    rw [List.sum_cons, ← Nat.add_assoc] at hsum
    exact hsum

lemma nxLoop_first_hit (l : List Nat) :
    ∀ (c : Nat) (t : ℚ), l ≠ [] → t ≤ ((c + l.sum : Nat) : ℚ) →
      ∃ i : Nat, i < l.length ∧ nxLoop t c l = l.getD i 0 ∧
        t ≤ ((c + (l.take (i + 1)).sum : Nat) : ℚ) ∧
        ∀ j : Nat, j < i → ((c + (l.take (j + 1)).sum : Nat) : ℚ) < t := by
  induction l with
  | nil => intro c t h _; exact absurd rfl h
  | cons a rest ih =>
    intro c t _ hsum
    by_cases h : t ≤ ((c + a : Nat) : ℚ)
    · refine ⟨0, by simp, by rw [nxLoop_cons_pos h]; rfl, by simpa using h, ?_⟩
      intro j hj
      exact absurd hj (Nat.not_lt_zero j)
    · cases rest with
      | nil =>
        exfalso
        apply h
        simpa using hsum
      | cons b rest2 =>
        have hsum2 : t ≤ (((c + a) + (b :: rest2).sum : Nat) : ℚ) := by
          rw [List.sum_cons, ← Nat.add_assoc] at hsum
          exact hsum
        obtain ⟨i, hlen, heq, hhit, hbefore⟩ := ih (c + a) t (by simp) hsum2
        refine ⟨i + 1, by simpa using Nat.succ_lt_succ hlen, ?_, ?_, ?_⟩
        · rw [nxLoop_cons_neg h]
          simpa using heq
        · rw [List.take_succ_cons, List.sum_cons, ← Nat.add_assoc]
          exact hhit
        · intro j hj
          cases j with
          | zero => simpa using (not_le.mp h)
          | succ j2 =>
            have := hbefore j2 (by omega)
            rw [List.take_succ_cons, List.sum_cons, ← Nat.add_assoc]
            exact this

/-! ### Sorting and membership helpers -/

lemma sortDesc_sorted (l : List Nat) : List.Sorted (· ≥ ·) (sortDesc l) :=
  List.sorted_insertionSort _ l

lemma sortDesc_perm (l : List Nat) : List.Perm (sortDesc l) l :=
  List.perm_insertionSort _ l

lemma sortDesc_sum (l : List Nat) : (sortDesc l).sum = l.sum :=
  (sortDesc_perm l).sum_eq

lemma sortDesc_length (l : List Nat) : (sortDesc l).length = l.length :=
  (sortDesc_perm l).length_eq

lemma sortDesc_mem {l : List Nat} {a : Nat} : a ∈ sortDesc l ↔ a ∈ l :=
  (sortDesc_perm l).mem_iff

lemma sortDesc_ne_nil {l : List Nat} (h : l ≠ []) : sortDesc l ≠ [] := by
  intro hc
  apply h
  have := sortDesc_length l
  rw [hc] at this
  exact List.length_eq_zero.mp this.symm

lemma sortDesc_idem (l : List Nat) : sortDesc (sortDesc l) = sortDesc l :=
  (sortDesc_sorted l).insertionSort_eq

lemma calculate_nx_mem {contigs : List Nat} {p : ℚ} (hp : p ≤ 1)
    (hne : contigs ≠ []) : calculate_nx contigs p ∈ contigs := by
  apply nxLoop_mem contigs 0 _ hne
  have h0 : (0 : ℚ) ≤ (contigs.sum : ℚ) := by positivity
  calc (contigs.sum : ℚ) * p ≤ (contigs.sum : ℚ) := mul_le_of_le_one_right h0 hp
  _ = ((0 + contigs.sum : Nat) : ℚ) := by norm_num

/-! ### Extrema helpers -/

lemma listMax_cons (b : Nat) (rest : List Nat) :
    listMax (b :: rest) = max b (listMax rest) := rfl

lemma le_listMax : ∀ {l : List Nat} {a : Nat}, a ∈ l → a ≤ listMax l := by
  intro l
  induction l with
  | nil => intro a ha; simp at ha
  | cons b rest ih =>
    intro a ha
    rcases List.mem_cons.mp ha with h | h
    · subst h; rw [listMax_cons]; exact le_max_left _ _
    · rw [listMax_cons]; exact le_trans (ih h) (le_max_right _ _)

lemma listMax_mem : ∀ {l : List Nat}, l ≠ [] → listMax l ∈ l := by
  intro l
  induction l with
  | nil => intro h; exact absurd rfl h
  | cons b rest ih =>
    intro _
    rw [listMax_cons]
    cases rest with
    | nil => simp [listMax]
    | cons c rest2 =>
      rcases Nat.le_total b (listMax (c :: rest2)) with h | h
      · rw [max_eq_right h]
        exact List.mem_cons_of_mem _ (ih (by simp))
      · rw [max_eq_left h]
        simp

lemma sortDesc_cons_eq_listMax {l : List Nat} {a : Nat} {rest : List Nat}
    (h : sortDesc l = a :: rest) : a = listMax l := by
  have hne : l ≠ [] := by
    intro hc
    rw [hc] at h
    simp [sortDesc, List.insertionSort] at h
  have ham : a ∈ l := sortDesc_mem.mp (h ▸ List.mem_cons_self a rest)
  have hle : a ≤ listMax l := le_listMax ham
  have hmem : listMax l ∈ a :: rest := by
    rw [← h]
    exact sortDesc_mem.mpr (listMax_mem hne)
  rcases List.mem_cons.mp hmem with heq | hmemr
  · exact heq.symm
  · have hsorted := sortDesc_sorted l
    rw [h] at hsorted
    have hge : a ≥ listMax l := (List.sorted_cons.mp hsorted).1 _ hmemr
    exact le_antisymm hle hge

lemma foldrMin_pos : ∀ (rest : List Nat) (a : Nat), 0 < a → (∀ b ∈ rest, 0 < b) →
    0 < rest.foldr Nat.min a := by
  intro rest
  induction rest with
  | nil => intro a ha _; exact ha
  | cons b rest2 ih =>
    intro a ha hb
    simp only [List.foldr_cons]
    exact lt_min (hb b (by simp)) (ih a ha (fun x hx => hb x (by simp [hx])))

lemma listMin_pos {l : List Nat} (hne : l ≠ []) (hpos : ∀ n ∈ l, 0 < n) :
    0 < listMin l := by
  cases l with
  | nil => exact absurd rfl hne
  | cons a rest =>
    exact foldrMin_pos rest a (hpos a (by simp)) (fun b hb => hpos b (by simp [hb]))

/-! ### Projections of `computeStats` -/

lemma computeStats_total (l : List Nat) :
    (computeStats l).total_length = (sortDesc l).sum := rfl

lemma computeStats_ncontigs (l : List Nat) :
    (computeStats l).n_contigs = (sortDesc l).length := rfl

lemma computeStats_n50 (l : List Nat) :
    (computeStats l).n50 = calculate_nx (sortDesc l) (1/2) := rfl

lemma computeStats_n75 (l : List Nat) :
    (computeStats l).n75 = calculate_nx (sortDesc l) (3/4) := rfl

lemma computeStats_n90 (l : List Nat) :
    (computeStats l).n90 = calculate_nx (sortDesc l) (9/10) := rfl

lemma computeStats_max (l : List Nat) :
    (computeStats l).max_contig = listMax (sortDesc l) := rfl

lemma computeStats_min (l : List Nat) :
    (computeStats l).min_contig = listMin (sortDesc l) := rfl

lemma computeStats_longest (l : List Nat) :
    (computeStats l).longest_10_sum =
      if 10 ≤ (sortDesc l).length then ((sortDesc (sortDesc l)).take 10).sum
      else (sortDesc l).sum := rfl

lemma computeStats_fields_pos (l : List Nat) (hne : l ≠ []) (hpos : ∀ n ∈ l, 0 < n) :
    0 < (computeStats l).total_length ∧ 0 < (computeStats l).n_contigs ∧
    0 < (computeStats l).max_contig ∧ 0 < (computeStats l).min_contig ∧
    0 < (computeStats l).n50 ∧ 0 < (computeStats l).n75 ∧ 0 < (computeStats l).n90 ∧
    0 < (computeStats l).longest_10_sum := by
  have hsne : sortDesc l ≠ [] := sortDesc_ne_nil hne
  have hspos : ∀ n ∈ sortDesc l, 0 < n := fun n hn => hpos n (sortDesc_mem.mp hn)
  have htot : 0 < (sortDesc l).sum := List.sum_pos _ hspos hsne
  refine ⟨?_, ?_, ?_, ?_, ?_, ?_, ?_, ?_⟩
  · rw [computeStats_total]; exact htot
  · rw [computeStats_ncontigs]; exact List.length_pos.mpr hsne
  · rw [computeStats_max]
    obtain ⟨b, L, hbl⟩ := List.exists_cons_of_ne_nil hsne
    have hb : b ∈ sortDesc l := by rw [hbl]; simp
    exact lt_of_lt_of_le (hspos b hb) (le_listMax hb)
  · rw [computeStats_min]; exact listMin_pos hsne hspos
  · rw [computeStats_n50]
    exact hspos _ (calculate_nx_mem (by norm_num) hsne)
  · rw [computeStats_n75]
    exact hspos _ (calculate_nx_mem (by norm_num) hsne)
  · rw [computeStats_n90]
    exact hspos _ (calculate_nx_mem (by norm_num) hsne)
  · rw [computeStats_longest]
    by_cases h : 10 ≤ (sortDesc l).length
    · rw [if_pos h, sortDesc_idem]
      apply List.sum_pos
      · exact fun n hn => hspos n (List.take_subset _ _ hn)
      · rw [Ne, List.take_eq_nil_iff]
        push_neg
        exact ⟨by omega, hsne⟩
    · rw [if_neg h]; exact htot

/-! ### Concrete evaluations of the running example -/

lemma computeStats_example_n50 :
    (computeStats [1000, 800, 600, 400, 200]).n50 = 800 := by
  rw [computeStats_n50]
  have hs : sortDesc [1000, 800, 600, 400, 200] = [1000, 800, 600, 400, 200] := by decide
  rw [hs, calculate_nx]
  have hsum : ([1000, 800, 600, 400, 200] : List Nat).sum = 3000 := by decide
  rw [hsum]
  have ht : ((3000 : Nat) : ℚ) * (1 / 2) = 1500 := by norm_num
  rw [ht]
  decide

lemma computeStats_example_n90 :
    (computeStats [1000, 800, 600, 400, 200]).n90 = 400 := by
  rw [computeStats_n90]
  have hs : sortDesc [1000, 800, 600, 400, 200] = [1000, 800, 600, 400, 200] := by decide
  rw [hs, calculate_nx]
  have hsum : ([1000, 800, 600, 400, 200] : List Nat).sum = 3000 := by decide
  rw [hsum]
  have ht : ((3000 : Nat) : ℚ) * (9 / 10) = 2700 := by norm_num
  rw [ht]
  decide

/-! ### Claim theorems -/

/-- C1: for every non-empty contig-length list and every percentage x in
(0, 100], `calculate_nx` returns the length of the first contig, walking the
descending-sorted list while accumulating a running sum, at which the
running sum reaches or exceeds `total_length * x / 100`; in particular on
[1000, 800, 600, 400, 200] it returns n50 = 800 and n90 = 400. -/
theorem claim_c1_nx_first_hit (l : List Nat) (x : ℚ) (hne : l ≠ [])
    (hx0 : 0 < x) (hx1 : x ≤ 100) :
    (∃ i : Nat, i < (sortDesc l).length ∧
      calculate_nx (sortDesc l) (x / 100) = (sortDesc l).getD i 0 ∧
      (l.sum : ℚ) * (x / 100) ≤ (((sortDesc l).take (i + 1)).sum : ℚ) ∧
      ∀ j : Nat, j < i →
        ((((sortDesc l).take (j + 1)).sum : ℚ) < (l.sum : ℚ) * (x / 100)))
    ∧ (computeStats [1000, 800, 600, 400, 200]).n50 = 800
    ∧ (computeStats [1000, 800, 600, 400, 200]).n90 = 400 := by
  refine ⟨?_, computeStats_example_n50, computeStats_example_n90⟩
  have hsne := sortDesc_ne_nil hne
  have hp1 : x / 100 ≤ 1 := by linarith
  have h0 : (0 : ℚ) ≤ ((sortDesc l).sum : ℚ) := by positivity
  have hreach : ((sortDesc l).sum : ℚ) * (x / 100) ≤
      ((0 + (sortDesc l).sum : Nat) : ℚ) := by
    calc ((sortDesc l).sum : ℚ) * (x / 100) ≤ ((sortDesc l).sum : ℚ) :=
        mul_le_of_le_one_right h0 hp1
    _ = ((0 + (sortDesc l).sum : Nat) : ℚ) := by norm_num
  obtain ⟨i, hlen, heq, hhit, hbef⟩ := nxLoop_first_hit (sortDesc l) 0 _ hsne hreach
  refine ⟨i, hlen, ?_, ?_, ?_⟩
  · rw [calculate_nx]; exact heq
  · have h2 := hhit
    rw [Nat.zero_add, sortDesc_sum] at h2
    exact h2
  · intro j hj
    have h2 := hbef j hj
    rw [Nat.zero_add, sortDesc_sum] at h2
    exact h2

/-- C1 witness: the first-hit theorem instantiated on the concrete list of
the spec with x = 50. -/
theorem claim_c1_witness :
    (computeStats [1000, 800, 600, 400, 200]).n50 = 800 ∧
    (computeStats [1000, 800, 600, 400, 200]).n90 = 400 :=
  (claim_c1_nx_first_hit [1000, 800, 600, 400, 200] 50 (by decide) (by decide)
    (by decide)).2

/-- C2: for every non-empty contig-length list, n50 >= n75 >= n90. -/
theorem claim_c2_nx_monotone (l : List Nat) (hne : l ≠ []) :
    (computeStats l).n50 ≥ (computeStats l).n75 ∧
    (computeStats l).n75 ≥ (computeStats l).n90 := by
  have hs := sortDesc_sorted l
  have h0 : (0 : ℚ) ≤ ((sortDesc l).sum : ℚ) := by positivity
  constructor
  · rw [computeStats_n50, computeStats_n75, calculate_nx, calculate_nx]
    exact nxLoop_anti _ 0 _ _ hs (mul_le_mul_of_nonneg_left (by norm_num) h0)
  · rw [computeStats_n75, computeStats_n90, calculate_nx, calculate_nx]
    exact nxLoop_anti _ 0 _ _ hs (mul_le_mul_of_nonneg_left (by norm_num) h0)

/-- C2 witness: monotonicity on the concrete example list. -/
theorem claim_c2_witness :
    (computeStats [1000, 800, 600, 400, 200]).n50 ≥
      (computeStats [1000, 800, 600, 400, 200]).n75 ∧
    (computeStats [1000, 800, 600, 400, 200]).n75 ≥
      (computeStats [1000, 800, 600, 400, 200]).n90 :=
  claim_c2_nx_monotone [1000, 800, 600, 400, 200] (by decide)

/-- C3: the parser flushes the final record at end of file (appending an
explicit trailing header changes nothing), and the file
`>seq1` / `ACGTACGT` parses to [8]. -/
theorem claim_c3_eof_flush (lines : List (List Char)) :
    parse_fasta_lines (lines ++ [['>']]) = parse_fasta_lines lines ∧
    parse_fasta_lines [">seq1".toList, "ACGTACGT".toList] = [8] :=
  ⟨parseLoop_append_trailing_header lines [], by decide⟩

/-- C3 witness: the end-of-file flush theorem applied to a concrete file. -/
theorem claim_c3_witness :
    parse_fasta_lines ([">a".toList, "CC".toList] ++ [['>']]) =
      parse_fasta_lines [">a".toList, "CC".toList] ∧
    parse_fasta_lines [">seq1".toList, "ACGTACGT".toList] = [8] :=
  claim_c3_eof_flush [">a".toList, "CC".toList]

/-- C4: every parsed contig length is strictly positive, and the file
`>seq1` / `>seq2` / `ACGT` yields [4] with n_contigs = 1, not 2. -/
theorem claim_c4_positive_lengths (lines : List (List Char)) (n : Nat)
    (hn : n ∈ parse_fasta_lines lines) :
    0 < n ∧
    parse_fasta_lines [">seq1".toList, ">seq2".toList, "ACGT".toList] = [4] ∧
    (computeStats
      (parse_fasta_lines [">seq1".toList, ">seq2".toList, "ACGT".toList])).n_contigs = 1 :=
  ⟨parseLoop_mem_pos lines [] n hn, by decide, by decide⟩

/-- C4 witness: positivity applied to the length 8 parsed from a concrete
file. -/
theorem claim_c4_witness :
    0 < 8 ∧
    parse_fasta_lines [">seq1".toList, ">seq2".toList, "ACGT".toList] = [4] ∧
    (computeStats
      (parse_fasta_lines [">seq1".toList, ">seq2".toList, "ACGT".toList])).n_contigs = 1 :=
  claim_c4_positive_lengths [">seq1".toList, "ACGTACGT".toList] 8 (by decide)

/-- C5: `parse_fasta_stats` returns `none` exactly when the file is missing
or unreadable, or when zero non-empty records were parsed; otherwise it
returns a full statistics record with no zero-valued fields. -/
theorem claim_c5_none_iff (file : Option (List (List Char))) :
    (parse_fasta_stats file = none ↔
      file = none ∨ ∃ ls, file = some ls ∧ parse_fasta_lines ls = []) ∧
    ∀ s, parse_fasta_stats file = some s →
      0 < s.total_length ∧ 0 < s.n_contigs ∧ 0 < s.max_contig ∧
      0 < s.min_contig ∧ 0 < s.n50 ∧ 0 < s.n75 ∧ 0 < s.n90 ∧
      0 < s.longest_10_sum := by
  cases file with
  | none => simp [parse_fasta_stats]
  | some ls =>
    by_cases h : (parse_fasta_lines ls).isEmpty
    · have hnil : parse_fasta_lines ls = [] := List.isEmpty_iff.mp h
      constructor
      · simp [parse_fasta_stats, h, hnil]
      · intro s hs
        simp [parse_fasta_stats, h] at hs
    · have hne : parse_fasta_lines ls ≠ [] := by
        intro hc
        rw [hc] at h
        exact h rfl
      constructor
      · simp [parse_fasta_stats, h, hne]
      · intro s hs
        simp [parse_fasta_stats, h] at hs
        rw [← hs]
        exact computeStats_fields_pos _ hne (fun n hn => parseLoop_mem_pos ls [] n hn)

/-- C5 witness: the positivity branch applied to a concrete readable
one-record file. -/
theorem claim_c5_witness :
    0 < (computeStats (parse_fasta_lines [">seq1".toList, "ACGTACGT".toList])).total_length ∧
    0 < (computeStats (parse_fasta_lines [">seq1".toList, "ACGTACGT".toList])).n_contigs ∧
    0 < (computeStats (parse_fasta_lines [">seq1".toList, "ACGTACGT".toList])).max_contig ∧
    0 < (computeStats (parse_fasta_lines [">seq1".toList, "ACGTACGT".toList])).min_contig ∧
    0 < (computeStats (parse_fasta_lines [">seq1".toList, "ACGTACGT".toList])).n50 ∧
    0 < (computeStats (parse_fasta_lines [">seq1".toList, "ACGTACGT".toList])).n75 ∧
    0 < (computeStats (parse_fasta_lines [">seq1".toList, "ACGTACGT".toList])).n90 ∧
    0 < (computeStats (parse_fasta_lines [">seq1".toList, "ACGTACGT".toList])).longest_10_sum :=
  (claim_c5_none_iff (some [">seq1".toList, "ACGTACGT".toList])).2
    (computeStats (parse_fasta_lines [">seq1".toList, "ACGTACGT".toList])) rfl

/-- C6 counterexample: leading non-header content before the first header is
NOT ignored: `ACGT` before `>seq1` contributes its own entry, so the parse
yields [4, 4] where the claim predicts the same result [4] as without the
leading content. -/
theorem claim_c6_counterexample :
    parse_fasta_lines ["ACGT".toList, ">seq1".toList, "AAAA".toList] = [4, 4] ∧
    parse_fasta_lines [">seq1".toList, "AAAA".toList] = [4] :=
  ⟨by decide, by decide⟩

/-- C6 amended: leading non-header content is accumulated as a headerless
record: if its total stripped length is positive it contributes one leading
entry of that length, and otherwise nothing; parsing never crashes (the
function is total). -/
theorem claim_c6_amended (junk lines : List (List Char))
    (hj : ∀ j ∈ junk, startsHeader (stripChars j) = false)
    (hl : lines = [] ∨ startsHeader (stripChars (lines.headD [])) = true) :
    parse_fasta_lines (junk ++ lines) =
      (if ((junk.map stripChars).flatten).length = 0 then []
       else [((junk.map stripChars).flatten).length]) ++ parse_fasta_lines lines := by
  rw [parse_fasta_lines, parse_fasta_lines, parseLoop_prefix_nonheader junk lines [] hj]
  simp only [List.nil_append]
  rcases hl with hnil | hhead
  · subst hnil
    cases hflat : (junk.map stripChars).flatten with
    | nil => simp [parseLoop]
    | cons c cs => simp [parseLoop]
  · cases lines with
    | nil => exact absurd hhead (by decide)
    | cons h1 t1 =>
      have hh : startsHeader (stripChars h1) = true := hhead
      simp only [parseLoop, hh, if_true]
      rw [flush_length_eq]
      simp [parseLoop]

/-- C6 witness: the amended statement on a concrete file with leading
non-header content. -/
theorem claim_c6_witness :
    parse_fasta_lines (["ACGT".toList] ++ [">seq1".toList, "AAAA".toList]) =
      (if (((["ACGT".toList]).map stripChars).flatten).length = 0 then []
       else [(((["ACGT".toList]).map stripChars).flatten).length]) ++
        parse_fasta_lines [">seq1".toList, "AAAA".toList] :=
  claim_c6_amended ["ACGT".toList] [">seq1".toList, "AAAA".toList]
    (by decide) (by decide)

/-- C7 counterexample: for the out-of-range percentage x = -50 the Nx
computation does not fail: it returns 1000, which is a contig length of the
input list. -/
theorem claim_c7_counterexample :
    calculate_nx (sortDesc [1000, 800, 600, 400, 200]) ((-50) / 100) = 1000 ∧
    (1000 : Nat) ∈ ([1000, 800, 600, 400, 200] : List Nat) := by
  constructor
  · have hs : sortDesc [1000, 800, 600, 400, 200] = [1000, 800, 600, 400, 200] := by
      decide
    have hsum : ([1000, 800, 600, 400, 200] : List Nat).sum = 3000 := by decide
    rw [hs, calculate_nx, hsum]
    apply nxLoop_cons_pos
    norm_num
  · simp

/-- C7 amended: `calculate_nx` performs no validation of the percentage:
for x <= 0 it returns the longest contig length, and for x > 100 (with a
positive total) it returns 0; it never raises. -/
theorem claim_c7_amended (l : List Nat) (x : ℚ) (hne : l ≠ []) :
    (x ≤ 0 → calculate_nx (sortDesc l) (x / 100) = listMax l) ∧
    (100 < x → 0 < l.sum → calculate_nx (sortDesc l) (x / 100) = 0) := by
  constructor
  · intro hx
    obtain ⟨a, rest, hsd⟩ := List.exists_cons_of_ne_nil (sortDesc_ne_nil hne)
    rw [calculate_nx, hsd]
    have hta : ((a :: rest).sum : ℚ) * (x / 100) ≤ ((0 + a : Nat) : ℚ) := by
      have h1 : ((a :: rest).sum : ℚ) * (x / 100) ≤ 0 :=
        mul_nonpos_iff.mpr (Or.inl ⟨by positivity, by linarith⟩)
      have h2 : (0 : ℚ) ≤ ((0 + a : Nat) : ℚ) := by positivity
      linarith
    rw [nxLoop_cons_pos hta]
    exact sortDesc_cons_eq_listMax hsd
  · intro hx hsum
    rw [calculate_nx]
    apply nxLoop_eq_zero
    have h0 : (0 : ℚ) < ((sortDesc l).sum : ℚ) := by
      rw [sortDesc_sum]
      exact_mod_cast hsum
    have hlt : ((sortDesc l).sum : ℚ) < ((sortDesc l).sum : ℚ) * (x / 100) :=
      (lt_mul_iff_one_lt_right h0).mpr (by linarith)
    rw [Nat.zero_add]
    exact hlt

/-- C7 witness: the amended statement at the in-bound-violating percentage
x = 0 on the concrete list. -/
theorem claim_c7_witness :
    calculate_nx (sortDesc [1000, 800, 600, 400, 200]) ((0 : ℚ) / 100) =
      listMax [1000, 800, 600, 400, 200] :=
  (claim_c7_amended [1000, 800, 600, 400, 200] 0 (by decide)).1 (by decide)

/-- C8: for fewer than 10 contigs `longest_10_sum` equals `total_length`
(which is also the sum of the at-most-10 longest), and for at least 10
contigs it equals the sum of the 10 longest. -/
theorem claim_c8_longest10 (l : List Nat) (hne : l ≠ []) :
    (l.length < 10 →
      (computeStats l).longest_10_sum = (computeStats l).total_length ∧
      (computeStats l).total_length = ((sortDesc l).take 10).sum) ∧
    (10 ≤ l.length →
      (computeStats l).longest_10_sum = ((sortDesc l).take 10).sum) := by
  constructor
  · intro h
    have hlen : ¬ 10 ≤ (sortDesc l).length := by
      rw [sortDesc_length]; omega
    refine ⟨?_, ?_⟩
    · rw [computeStats_longest, computeStats_total, if_neg hlen]
    · rw [computeStats_total,
        List.take_of_length_le (by rw [sortDesc_length]; omega : (sortDesc l).length ≤ 10)]
  · intro h
    have hlen : 10 ≤ (sortDesc l).length := by
      rw [sortDesc_length]; omega
    rw [computeStats_longest, if_pos hlen, sortDesc_idem]

/-- C8 witness: the short-list branch on the concrete 5-element list. -/
theorem claim_c8_witness :
    (computeStats [1000, 800, 600, 400, 200]).longest_10_sum =
      (computeStats [1000, 800, 600, 400, 200]).total_length ∧
    (computeStats [1000, 800, 600, 400, 200]).total_length =
      ((sortDesc [1000, 800, 600, 400, 200]).take 10).sum :=
  (claim_c8_longest10 [1000, 800, 600, 400, 200] (by decide)).1 (by decide)

/-- C9: a whitespace-only line never terminates a record (removing it
changes nothing), a single record's contig length is the total stripped
length of its sequence lines, and the concrete file with an interior blank
line parses to [4]. -/
theorem claim_c9_blank_lines (pre post : List (List Char)) (ws : List Char)
    (hws : stripChars ws = []) :
    parse_fasta_lines (pre ++ ws :: post) = parse_fasta_lines (pre ++ post) ∧
    (∀ (hline : List Char) (seqs : List (List Char)),
      startsHeader (stripChars hline) = true →
      (∀ s ∈ seqs, startsHeader (stripChars s) = false) →
      parse_fasta_lines (hline :: seqs) =
        if ((seqs.map stripChars).flatten).length = 0 then []
        else [((seqs.map stripChars).flatten).length]) ∧
    parse_fasta_lines [">s".toList, "AC".toList, "   ".toList, "GT".toList] = [4] := by
  refine ⟨parseLoop_skip_blank pre post ws [] hws, ?_, by decide⟩
  intro hline seqs hh hs
  rw [parse_fasta_lines]
  simp only [parseLoop, hh, if_true]
  have hpre := parseLoop_prefix_nonheader seqs [] [] hs
  rw [List.append_nil] at hpre
  rw [hpre]
  cases hflat : (seqs.map stripChars).flatten with
  | nil => simp [parseLoop]
  | cons c cs => simp [parseLoop]

/-- C9 witness: blank-line invariance and the concrete example. -/
theorem claim_c9_witness :
    parse_fasta_lines ([">x".toList] ++ "  ".toList :: ["AAA".toList]) =
      parse_fasta_lines ([">x".toList] ++ ["AAA".toList]) ∧
    parse_fasta_lines [">s".toList, "AC".toList, "   ".toList, "GT".toList] = [4] := by
  have h := claim_c9_blank_lines [">x".toList] ["AAA".toList] "  ".toList (by decide)
  exact ⟨h.1, h.2.2⟩

/-- C10: for a non-empty list and a percentage p with 0 < p <= 1, the
fallback 0 branch of `calculate_nx` is unreachable: the result is an
element of the list (hence positive whenever all contig lengths are). -/
theorem claim_c10_result_mem (l : List Nat) (p : ℚ) (hne : l ≠ [])
    (hp0 : 0 < p) (hp1 : p ≤ 1) :
    calculate_nx (sortDesc l) p ∈ l ∧
    ((∀ n ∈ l, 0 < n) → 0 < calculate_nx (sortDesc l) p) := by
  have hm : calculate_nx (sortDesc l) p ∈ sortDesc l :=
    calculate_nx_mem hp1 (sortDesc_ne_nil hne)
  exact ⟨sortDesc_mem.mp hm, fun hpos => hpos _ (sortDesc_mem.mp hm)⟩

/-- C10 witness: membership at p = 1 on the concrete list. -/
theorem claim_c10_witness :
    calculate_nx (sortDesc [1000, 800, 600, 400, 200]) 1 ∈
      ([1000, 800, 600, 400, 200] : List Nat) :=
  (claim_c10_result_mem [1000, 800, 600, 400, 200] 1 (by decide) (by decide)
    (by decide)).1
